import Mathlib

set_option linter.unusedSectionVars false

/-!
Verification of the `session` repository's session store against its
specification.

The core of the repository is `HashSessionStore<K, V>` in
`src/sessionstore/hashsession.rs`: a `HashMap<K, RwLock<V>>` behind an
`Arc<RwLock<...>>`, implementing the `SessionStore` trait operations
`insert`, `find`, `swap`, `upsert`, `remove`.

Shallow embedding: the contents of the inner `HashMap` are modelled as a
total function `K → Option V` (the extensional view of a hash map with
decidable key equality).  Each trait method is translated directly from
the Rust source, preserving its control flow (the read-probe on the outer
map becomes a `match` on the looked-up entry; the per-entry `RwLock`
write becomes a pointwise map update; `clone()` of a stored value is the
identity on the pure value).  The `Arc` sharing used by the `Clone`
implementations of `HashSessionStore` and `Sessions` is modelled by a
small heap: a world mapping allocation identifiers to map contents, with
handles holding an identifier.
-/

namespace SessionRepo

/-- Extensional contents of the inner `HashMap<K, RwLock<V>>`. -/
def Store (K V : Type) : Type := K → Option V

variable {K V : Type} [DecidableEq K]

/-- `HashMap::new()`: the empty map. -/
def Store.empty (K V : Type) : Store K V := fun _ => none

/-- `HashMap::contains_key`. -/
def mapContainsKey (s : Store K V) (k : K) : Bool :=
  (s k).isSome

/-- `HashMap::find` (the lookup method of the era's `HashMap`, today `get`). -/
def mapFind (s : Store K V) (k : K) : Option V :=
  s k

/-- `HashMap::insert`: unconditional overwrite of the entry for `k`. -/
def mapInsert (s : Store K V) (k : K) (v : V) : Store K V :=
  fun k0 => if k0 = k then some v else s k0

/-- `HashMap::remove`: deletes the entry for `k`, returns whether one existed. -/
def mapRemove (s : Store K V) (k : K) : Bool × Store K V :=
  ((s k).isSome, fun k0 => if k0 = k then none else s k0)

namespace HashSessionStore

/-- `HashSessionStore::new`: a store wrapping an empty map. -/
def new (K V : Type) : Store K V := Store.empty K V

/-- `HashSessionStore::insert` (hashsession.rs lines 51-57): probe
`contains_key` under the outer read lock; only when the key is absent,
take the outer write lock and insert a fresh entry (cloning the key). -/
def insert (s : Store K V) (k : K) (v : V) : Store K V :=
  if !mapContainsKey s k then mapInsert s k v else s

/-- `HashSessionStore::find` (hashsession.rs lines 58-63): look the entry
up under the outer read lock; on a hit return a clone of the value read
under the entry's read lock, on a miss return `None`. -/
def find (s : Store K V) (k : K) : Option V :=
  match mapFind s k with
  | some v => some v
  | none => none

/-- `HashSessionStore::swap` (hashsession.rs lines 64-77): on a hit, read
the old value, overwrite the entry through its own write lock, and return
the old value; on a miss, delegate to `insert` and return `None`. -/
def swap (s : Store K V) (k : K) (v : V) : Option V × Store K V :=
  match mapFind s k with
  | some old => (some old, mapInsert s k v)
  | none => (none, insert s k v)

/-- `HashSessionStore::upsert` (hashsession.rs lines 78-90): on a hit,
apply the mutator to the stored value in place through the entry's write
lock and return a clone of the mutated value; on a miss, delegate to
`insert` with (a clone of) the default value and return the default. -/
def upsert (s : Store K V) (k : K) (v : V) (mutator : V → V) : V × Store K V :=
  match mapFind s k with
  | some old =>
      let newV := mutator old
      (newV, mapInsert s k newV)
  | none => (v, insert s k v)

/-- `HashSessionStore::remove` (hashsession.rs lines 91-93): delegate to
the map's `remove` under the outer write lock. -/
def remove (s : Store K V) (k : K) : Bool × Store K V :=
  mapRemove s k

end HashSessionStore

/-- A heap of `Arc`-allocated maps: allocation identifier to contents.
Used to model the sharing behaviour of the `Clone` implementations. -/
def World (K V : Type) : Type := Nat → Store K V

/-- `HashSessionStore<K, V>` itself: a handle holding (the identity of)
the `Arc<RwLock<HashMap<..>>>` it points at. -/
structure StoreHandle where
  store : Nat

/-- `impl Clone for HashSessionStore` (hashsession.rs lines 25-31): the
clone holds `self.store.clone()`, an `Arc` clone, i.e. the same
allocation. -/
def StoreHandle.clone (h : StoreHandle) : StoreHandle :=
  { store := h.store }

/-- `find` performed through a handle: operate on the map the handle's
`Arc` points at. -/
def World.findVia (w : World K V) (h : StoreHandle) (k : K) : Option V :=
  HashSessionStore.find (w h.store) k

/-- `insert` performed through a handle: update the map the handle's
`Arc` points at, leaving other allocations untouched. -/
def World.insertVia (w : World K V) (h : StoreHandle) (k : K) (v : V) : World K V :=
  fun r => if r = h.store then HashSessionStore.insert (w r) k v else w r

/-- The `Sessions` middleware (sessions.rs lines 31-35): a key-generating
function and a session store (the `PhantomData` field carries no data). -/
structure Sessions (Req K S : Type) where
  key_generator : Req → K
  session_store : S

/-- `impl Clone for Sessions` (sessions.rs lines 37-45): copies the
key-generator function pointer and clones the store handle. -/
def Sessions.clone {Req K : Type} (m : Sessions Req K StoreHandle) :
    Sessions Req K StoreHandle :=
  { key_generator := m.key_generator
    session_store := m.session_store.clone }

/-! ### Basic lemmas about the map model -/

theorem mapInsert_self (s : Store K V) (k : K) (v : V) :
    mapInsert s k v k = some v := by
  simp [mapInsert]

theorem mapInsert_other (s : Store K V) (k k' : K) (v : V) (h : k' ≠ k) :
    mapInsert s k v k' = s k' := by
  simp [mapInsert, h]

theorem find_eq (s : Store K V) (k : K) :
    HashSessionStore.find s k = s k := by
  unfold HashSessionStore.find mapFind
  cases s k <;> rfl

theorem insert_absent (s : Store K V) (k : K) (v : V) (h : s k = none) :
    HashSessionStore.insert s k v = mapInsert s k v := by
  unfold HashSessionStore.insert mapContainsKey
  simp [h]

theorem insert_present (s : Store K V) (k : K) (v w : V) (h : s k = some w) :
    HashSessionStore.insert s k v = s := by
  unfold HashSessionStore.insert mapContainsKey
  simp [h]

/-- A concrete store holding the single entry `1 ↦ 5`, used to witness
the theorems below at evaluable inputs. -/
def sampleStore : Store Nat Nat :=
  mapInsert (Store.empty Nat Nat) 1 5

/-! ### Claim theorems -/

/-- C1: if an entry for `k` already exists, `insert(k, v)` is a no-op
that preserves the existing value; starting from an absent key,
`insert(k, v)` creates an entry holding `v`, and
`insert(k, v1)` followed by `insert(k, v2)` leaves
`find(k) = Some(v1)` — insert never overwrites an existing entry. -/
theorem insert_idempotent_if_present (s : Store K V) (k : K) (v v1 v2 w : V) :
    (s k = some w → HashSessionStore.insert s k v = s) ∧
    (s k = none →
      HashSessionStore.find (HashSessionStore.insert s k v) k = some v) ∧
    (s k = none →
      HashSessionStore.find
        (HashSessionStore.insert (HashSessionStore.insert s k v1) k v2) k = some v1) := by
  refine ⟨fun h => insert_present s k v w h, fun h => ?_, fun h => ?_⟩
  · rw [insert_absent s k v h, find_eq, mapInsert_self]
  · rw [insert_absent s k v1 h,
        insert_present (mapInsert s k v1) k v2 v1 (mapInsert_self s k v1),
        find_eq, mapInsert_self]

/-- C1 witness: on `sampleStore` (which maps `1 ↦ 5`), `insert 1 7` is a
no-op, and from the empty store `insert 2 5` then `insert 2 7` leaves
`find 2 = some 5`. -/
theorem insert_idempotent_if_present_witness :
    HashSessionStore.insert sampleStore 1 7 = sampleStore ∧
    HashSessionStore.find
      (HashSessionStore.insert
        (HashSessionStore.insert (Store.empty Nat Nat) 2 5) 2 7) 2 = some 5 :=
  ⟨(insert_idempotent_if_present sampleStore 1 7 5 7 5).1 rfl,
   (insert_idempotent_if_present (Store.empty Nat Nat) 2 0 5 7 0).2.2 rfl⟩

/-- C2: on a key holding `v`, `upsert(k, d, f)` applies `f` to the stored
value in place, returns the post-mutation value `f v`, and leaves
`find(k) = Some(f v)`; the default `d` is not stored on this path. -/
theorem upsert_hit (s : Store K V) (k : K) (v d : V) (f : V → V)
    (h : s k = some v) :
    (HashSessionStore.upsert s k d f).1 = f v ∧
    HashSessionStore.find (HashSessionStore.upsert s k d f).2 k = some (f v) := by
  unfold HashSessionStore.upsert mapFind
  rw [h]
  refine ⟨rfl, ?_⟩
  show HashSessionStore.find (mapInsert s k (f v)) k = some (f v)
  rw [find_eq, mapInsert_self]

/-- C2 witness: on `sampleStore` (`1 ↦ 5`), `upsert 1 0 (+1)` returns `6`
and leaves `find 1 = some 6`. -/
theorem upsert_hit_witness :
    (HashSessionStore.upsert sampleStore 1 0 (fun x => x + 1)).1 = 6 ∧
    HashSessionStore.find
      (HashSessionStore.upsert sampleStore 1 0 (fun x => x + 1)).2 1 = some 6 :=
  upsert_hit sampleStore 1 5 0 (fun x => x + 1) rfl

/-- C3: on an absent key, `upsert(k, d, f)` returns `d` unmutated (the
mutator is not applied) and leaves `find(k) = Some(d)`. -/
theorem upsert_miss (s : Store K V) (k : K) (d : V) (f : V → V)
    (h : s k = none) :
    (HashSessionStore.upsert s k d f).1 = d ∧
    HashSessionStore.find (HashSessionStore.upsert s k d f).2 k = some d := by
  unfold HashSessionStore.upsert mapFind
  rw [h]
  refine ⟨rfl, ?_⟩
  show HashSessionStore.find (HashSessionStore.insert s k d) k = some d
  rw [insert_absent s k d h, find_eq, mapInsert_self]

/-- C3 witness: on `sampleStore`, key `2` is absent, so
`upsert 2 9 (+1)` returns `9` and leaves `find 2 = some 9`. -/
theorem upsert_miss_witness :
    (HashSessionStore.upsert sampleStore 2 9 (fun x => x + 1)).1 = 9 ∧
    HashSessionStore.find
      (HashSessionStore.upsert sampleStore 2 9 (fun x => x + 1)).2 2 = some 9 :=
  upsert_miss sampleStore 2 9 (fun x => x + 1) rfl

/-- C4: on a key holding `v1`, `swap(k, v2)` returns `Some(v1)` and
leaves `find(k) = Some(v2)` — an unconditional replace on hit. -/
theorem swap_hit (s : Store K V) (k : K) (v1 v2 : V) (h : s k = some v1) :
    (HashSessionStore.swap s k v2).1 = some v1 ∧
    HashSessionStore.find (HashSessionStore.swap s k v2).2 k = some v2 := by
  unfold HashSessionStore.swap mapFind
  rw [h]
  refine ⟨rfl, ?_⟩
  show HashSessionStore.find (mapInsert s k v2) k = some v2
  rw [find_eq, mapInsert_self]

/-- C4 witness: on `sampleStore` (`1 ↦ 5`), `swap 1 7` returns `some 5`
and leaves `find 1 = some 7`. -/
theorem swap_hit_witness :
    (HashSessionStore.swap sampleStore 1 7).1 = some 5 ∧
    HashSessionStore.find (HashSessionStore.swap sampleStore 1 7).2 1 = some 7 :=
  swap_hit sampleStore 1 5 7 rfl

/-- C5: on an absent key, `swap(k, v)` returns `none` (no prior value
existed — a "first write") and creates an entry, so that
`find(k) = Some(v)` afterwards. -/
theorem swap_miss (s : Store K V) (k : K) (v : V) (h : s k = none) :
    (HashSessionStore.swap s k v).1 = none ∧
    HashSessionStore.find (HashSessionStore.swap s k v).2 k = some v := by
  unfold HashSessionStore.swap mapFind
  rw [h]
  refine ⟨rfl, ?_⟩
  show HashSessionStore.find (HashSessionStore.insert s k v) k = some v
  rw [insert_absent s k v h, find_eq, mapInsert_self]

/-- C5 witness: on `sampleStore`, key `2` is absent, so `swap 2 7`
returns `none` and leaves `find 2 = some 7`. -/
theorem swap_miss_witness :
    (HashSessionStore.swap sampleStore 2 7).1 = none ∧
    HashSessionStore.find (HashSessionStore.swap sampleStore 2 7).2 2 = some 7 :=
  swap_miss sampleStore 2 7 rfl

/-- C6: `remove(k)` returns `true` exactly when an entry for `k` was
present, afterwards `find(k)` is empty, and on an absent key it returns
`false` and leaves the store completely unchanged. -/
theorem remove_spec (s : Store K V) (k : K) :
    (HashSessionStore.remove s k).1 = mapContainsKey s k ∧
    HashSessionStore.find (HashSessionStore.remove s k).2 k = none ∧
    (s k = none →
      (HashSessionStore.remove s k).2 = s ∧
      (HashSessionStore.remove s k).1 = false) := by
  refine ⟨rfl, ?_, fun h => ⟨funext fun k0 => ?_, ?_⟩⟩
  · rw [find_eq]
    simp [HashSessionStore.remove, mapRemove]
  · by_cases hk : k0 = k
    · subst hk
      simp [HashSessionStore.remove, mapRemove, h]
    · simp [HashSessionStore.remove, mapRemove, hk]
  · simp [HashSessionStore.remove, mapRemove, mapContainsKey, h]

/-- C6 witness: on `sampleStore` (`1 ↦ 5`), `remove 1` returns `true` and
clears the key, while `remove 2` returns `false` and keeps the store
intact. -/
theorem remove_spec_witness :
    (HashSessionStore.remove sampleStore 1).1 = mapContainsKey sampleStore 1 ∧
    HashSessionStore.find (HashSessionStore.remove sampleStore 1).2 1 = none ∧
    (HashSessionStore.remove sampleStore 2).2 = sampleStore ∧
    (HashSessionStore.remove sampleStore 2).1 = false :=
  ⟨(remove_spec sampleStore 1).1, (remove_spec sampleStore 1).2.1,
   ((remove_spec sampleStore 2).2.2 rfl).1, ((remove_spec sampleStore 2).2.2 rfl).2⟩

/-- C7: `find(k)` returns (a copy of) the current value when present and
`none` when absent; in particular, every lookup on a freshly created
store returns `none`.  In this embedding `find` returns only the looked
up value and no store, so it cannot modify the store. -/
theorem find_spec (s : Store K V) (k : K) (v : V) :
    (∀ k0 : K, HashSessionStore.find (HashSessionStore.new K V) k0 = none) ∧
    (s k = some v → HashSessionStore.find s k = some v) ∧
    (s k = none → HashSessionStore.find s k = none) := by
  refine ⟨fun k0 => rfl, fun h => ?_, fun h => ?_⟩ <;> rw [find_eq, h]

/-- C7 witness: on a fresh store every key reads `none`; on `sampleStore`
(`1 ↦ 5`), `find 1 = some 5` and `find 2 = none`. -/
theorem find_spec_witness :
    HashSessionStore.find (HashSessionStore.new Nat Nat) 3 = none ∧
    HashSessionStore.find sampleStore 1 = some 5 ∧
    HashSessionStore.find sampleStore 2 = none :=
  ⟨(find_spec (HashSessionStore.new Nat Nat) 0 0).1 3,
   (find_spec sampleStore 1 5).2.1 rfl,
   (find_spec sampleStore 2 0).2.2 rfl⟩

/-- C9: cloning a `HashSessionStore` clones only the `Arc`, so the clone
aliases the same underlying map: the handles hold the same allocation,
an `insert` through the clone is observed by a `find` through the
original and vice versa, and cloning the `Sessions` middleware likewise
shares its store handle. -/
theorem clone_shares_state {Req : Type} (w : World K V) (h : StoreHandle)
    (k : K) (v : V) (m : Sessions Req K StoreHandle)
    (habs : w h.store k = none) :
    h.clone.store = h.store ∧
    (Sessions.clone m).session_store.store = m.session_store.store ∧
    World.findVia (World.insertVia w h.clone k v) h k = some v ∧
    World.findVia (World.insertVia w h k v) h.clone k = some v := by
  refine ⟨rfl, rfl, ?_, ?_⟩ <;>
  · unfold World.findVia World.insertVia StoreHandle.clone
    simp [insert_absent _ k v habs, find_eq, mapInsert_self]

/-- C9 witness: in a world of empty stores, inserting `1 ↦ 5` through a
clone of handle `0` is visible through the original handle, and
conversely. -/
theorem clone_shares_state_witness :
    World.findVia
      (World.insertVia (fun _ => Store.empty Nat Nat)
        (StoreHandle.clone ⟨0⟩) 1 5) ⟨0⟩ 1 = some 5 ∧
    World.findVia
      (World.insertVia (fun _ => Store.empty Nat Nat) ⟨0⟩ 1 5)
      (StoreHandle.clone ⟨0⟩) 1 = some 5 :=
  ⟨(clone_shares_state (fun _ => Store.empty Nat Nat) ⟨0⟩ 1 5
      ⟨fun _ : Unit => 0, ⟨0⟩⟩ rfl).2.2.1,
   (clone_shares_state (fun _ => Store.empty Nat Nat) ⟨0⟩ 1 5
      ⟨fun _ : Unit => 0, ⟨0⟩⟩ rfl).2.2.2⟩

/-- C10: every store operation applied with key `k` leaves the value
associated with any other key `k'` unchanged (`find` returns no store in
this embedding, so it trivially changes nothing). -/
theorem frame_other_keys (s : Store K V) (k k' : K) (v : V) (f : V → V)
    (hne : k' ≠ k) :
    HashSessionStore.find (HashSessionStore.insert s k v) k' =
      HashSessionStore.find s k' ∧
    HashSessionStore.find (HashSessionStore.swap s k v).2 k' =
      HashSessionStore.find s k' ∧
    HashSessionStore.find (HashSessionStore.upsert s k v f).2 k' =
      HashSessionStore.find s k' ∧
    HashSessionStore.find (HashSessionStore.remove s k).2 k' =
      HashSessionStore.find s k' := by
  have hins : HashSessionStore.find (HashSessionStore.insert s k v) k' =
      HashSessionStore.find s k' := by
    unfold HashSessionStore.insert
    by_cases hc : mapContainsKey s k <;>
      simp [hc, find_eq, mapInsert_other _ _ _ _ hne]
  have hins0 : HashSessionStore.insert s k v k' = s k' :=
    (find_eq (HashSessionStore.insert s k v) k').symm.trans
      (hins.trans (find_eq s k'))
  refine ⟨hins, ?_, ?_, ?_⟩
  · unfold HashSessionStore.swap mapFind
    cases hsk : s k <;>
      simp [find_eq, mapInsert_other _ _ _ _ hne, hins0]
  · unfold HashSessionStore.upsert mapFind
    cases hsk : s k <;>
      simp [find_eq, mapInsert_other _ _ _ _ hne, hins0,
        HashSessionStore.insert, mapContainsKey, hsk]
  · rw [find_eq, find_eq]
    simp [HashSessionStore.remove, mapRemove, hne]

/-- C10 witness: with `sampleStore` (`1 ↦ 5`), operating on key `2`
leaves `find 1` unchanged for every operation. -/
theorem frame_other_keys_witness :
    HashSessionStore.find (HashSessionStore.insert sampleStore 2 9) 1 =
      HashSessionStore.find sampleStore 1 ∧
    HashSessionStore.find (HashSessionStore.swap sampleStore 2 9).2 1 =
      HashSessionStore.find sampleStore 1 ∧
    HashSessionStore.find
      (HashSessionStore.upsert sampleStore 2 9 (fun x => x + 1)).2 1 =
      HashSessionStore.find sampleStore 1 ∧
    HashSessionStore.find (HashSessionStore.remove sampleStore 2).2 1 =
      HashSessionStore.find sampleStore 1 :=
  frame_other_keys sampleStore 2 1 9 (fun x => x + 1) (by decide)

end SessionRepo
